import Mathlib

/-!
Verification of `src/file_handler/factory.py`.

The repository defines an abstract `Handler` with `load`/`save`, one concrete
`CSVHandler` built on Python's `csv` module, a static registry
`HANDLER_CLASSES = {"csv": CSVHandler}`, and a factory `create_handler`.

The embedding models:
  * Python errors that the module can raise (`PyErr`);
  * the filesystem as a map from paths to file states (`FS`);
  * the `csv` module's writer and reader for the default "excel" dialect
    with a configurable delimiter — the only configuration `factory.py`
    uses: `quotechar='"'`, `doublequote=True`, `QUOTE_MINIMAL`,
    `lineterminator='\r\n'`, `skipinitialspace=False`, `strict=False`,
    `escapechar=None` (so the ESCAPED_CHAR states of CPython's reader state
    machine are unreachable and are omitted);
  * universal-newline translation performed by `open(path, "r")`
    (CSVHandler.load does not pass `newline=""`), while
    `open(path, "w", newline="")` in CSVHandler.save writes text verbatim.

The reader is CPython's `_csv.c` state machine.  CPython feeds the parser one
line at a time (text-mode lines, i.e. split after each `'\n'` once universal
newlines have been applied) followed by an end-of-line sentinel, and a record
is returned each time the sentinel brings the machine back to START_RECORD.
Since after universal-newline translation every line break is `'\n'`, the
sentinel fires exactly after each `'\n'` of the character stream, plus once at
end of input when the stream does not end in `'\n'`; `pstep`/`csvParseContent`
below implement exactly that schedule on the character stream.  The reader's
field-size resource limit (128 KiB) is not modelled.
-/

/-- Python exception values relevant to `factory.py`: `FileNotFoundError`
(caught and re-raised by `CSVHandler.load`), `ValueError` (raised by
`create_handler`), `TypeError` (raised by the `csv` module when the delimiter
is not a 1-character string), `_csv.Error` (reader errors such as NUL bytes),
and other `OSError`s (permission denied, ...), which `factory.py` never
touches. -/
inductive PyErr where
  | fileNotFound (msg : String)
  | valueError (msg : String)
  | typeError (msg : String)
  | csvError (msg : String)
  | osError (msg : String)
  deriving DecidableEq, Repr

deriving instance DecidableEq for Except

/-- State of one path: missing (`open` for reading raises
`FileNotFoundError`), present with text content, or a path whose `open`
raises some other error `e` (e.g. `PermissionError`). -/
inductive FileState where
  | absent
  | file (content : String)
  | ioFail (e : PyErr)
  deriving DecidableEq, Repr

/-- The filesystem: each path has a `FileState`. -/
abbrev FS := String → FileState

/-- Replace the state of path `p`. -/
def updateFS (fs : FS) (p : String) (st : FileState) : FS :=
  fun q => if q = p then st else fs q

/-! ### The csv writer (`csv.writer(f, delimiter=d).writerows(data)`) -/

/-- QUOTE_MINIMAL: a field is quoted iff it contains the delimiter, the quote
character, or a character of the line terminator `"\r\n"`. -/
def csvNeedsQuote (d : Char) (f : List Char) : Bool :=
  f.any fun c => c = d || c = '"' || c = '\r' || c = '\n'

/-- Inside a quoted field each `'"'` is written doubled (doublequote mode). -/
def csvEscapeQuotes : List Char → List Char
  | [] => []
  | c :: cs => if c = '"' then '"' :: '"' :: csvEscapeQuotes cs else c :: csvEscapeQuotes cs

/-- Rendering of one field. -/
def csvRenderField (d : Char) (f : List Char) : List Char :=
  if csvNeedsQuote d f then '"' :: (csvEscapeQuotes f ++ ['"']) else f

/-- The rendered fields joined by the delimiter (first field, then a
delimiter before each later field, as `join_append` does). -/
def joinDelim (d : Char) : List (List Char) → List Char
  | [] => []
  | [f] => f
  | f :: g :: fs => f ++ d :: joinDelim d (g :: fs)

/-- Body of one written record.  CPython's `csv_writerow`: after joining, if
the record has fields but rendered to nothing (a single empty unquoted
field), an empty quoted pseudo-field `""` is emitted instead. -/
def csvRowBody (d : Char) (row : List (List Char)) : List Char :=
  if row ≠ [] ∧ joinDelim d (row.map (csvRenderField d)) = [] then ['"', '"']
  else joinDelim d (row.map (csvRenderField d))

/-- One record as written to the file: body plus the default line terminator
`"\r\n"` (written verbatim thanks to `newline=""`). -/
def csvRenderRow (d : Char) (row : List (List Char)) : List Char :=
  csvRowBody d row ++ ['\r', '\n']

/-- `writer.writerows(data)`: concatenation of the records. -/
def csvWriteContent (d : Char) (rows : List (List (List Char))) : List Char :=
  (rows.map (csvRenderRow d)).flatten

/-- String-level serialization of `data` with delimiter `d`. -/
def csvWriteContentStr (d : Char) (data : List (List String)) : String :=
  String.mk (csvWriteContent d (data.map fun row => row.map String.data))

/-! ### Universal newlines (`open(path, "r")` with default `newline=None`) -/

/-- Text read in universal-newline mode: `"\r\n"` and a lone `"\r"` are both
translated to `"\n"`. -/
def pyUnivNL : List Char → List Char
  | [] => []
  | [c] => if c = '\r' then ['\n'] else [c]
  | c :: c2 :: cs =>
      if c = '\r' then
        if c2 = '\n' then '\n' :: pyUnivNL cs
        else '\n' :: pyUnivNL (c2 :: cs)
      else c :: pyUnivNL (c2 :: cs)

/-! ### The csv reader (`csv.reader(f, delimiter=d)`, default dialect) -/

/-- Reader states of CPython's `_csv.c` (the `escapechar` states are
unreachable with `escapechar=None` and are omitted). -/
inductive RState where
  | startRecord
  | startField
  | inField
  | inQuotedField
  | quoteInQuotedField
  | eatCrnl
  deriving DecidableEq, Repr

/-- Parser accumulator: current state, current field buffer, fields of the
record under construction, completed records, and a sticky error (a raised
`_csv.Error`).  Once set, the error is sticky: the raised exception aborts
the read.  The only error of the modelled dialect is "new-line character
seen in unquoted field", reachable only when a carriage return survives in
the stream, which universal-newline translation rules out; it is kept for
faithfulness. -/
structure RAcc where
  state : RState
  field : List Char
  fields : List (List Char)
  records : List (List (List Char))
  err : Option String
  deriving DecidableEq, Repr

/-- START_FIELD transition of `parse_process_char` (also reached by
fall-through from START_RECORD), in CPython's check order: end of line,
quote character, delimiter, ordinary character. -/
def startFieldStep (d : Char) (a : RAcc) (c : Char) : RAcc :=
  if c = '\n' ∨ c = '\r' then
    { a with state := .eatCrnl, fields := a.fields ++ [a.field], field := [] }
  else if c = '"' then
    { a with state := .inQuotedField }
  else if c = d then
    { a with state := .startField, fields := a.fields ++ [a.field], field := [] }
  else
    { a with state := .inField, field := a.field ++ [c] }

/-- `parse_process_char` on an ordinary character (not the end-of-line
sentinel), for the default dialect. -/
def rstep (d : Char) (a : RAcc) (c : Char) : RAcc :=
  match a.state with
  | .startRecord =>
      if c = '\n' ∨ c = '\r' then { a with state := .eatCrnl }
      else startFieldStep d { a with state := .startField } c
  | .startField => startFieldStep d a c
  | .inField =>
      if c = '\n' ∨ c = '\r' then
        { a with state := .eatCrnl, fields := a.fields ++ [a.field], field := [] }
      else if c = d then
        { a with state := .startField, fields := a.fields ++ [a.field], field := [] }
      else
        { a with field := a.field ++ [c] }
  | .inQuotedField =>
      if c = '"' then { a with state := .quoteInQuotedField }
      else { a with field := a.field ++ [c] }
  | .quoteInQuotedField =>
      if c = '"' then { a with state := .inQuotedField, field := a.field ++ [c] }
      else if c = d then
        { a with state := .startField, fields := a.fields ++ [a.field], field := [] }
      else if c = '\n' ∨ c = '\r' then
        { a with state := .eatCrnl, fields := a.fields ++ [a.field], field := [] }
      else
        { a with state := .inField, field := a.field ++ [c] }
  | .eatCrnl =>
      if c = '\n' ∨ c = '\r' then a
      else { a with err := some "new-line character seen in unquoted field" }

/-- `parse_process_char` on the end-of-line sentinel. -/
def rstepEOL (a : RAcc) : RAcc :=
  match a.state with
  | .startRecord => a
  | .startField => { a with state := .startRecord, fields := a.fields ++ [a.field], field := [] }
  | .inField => { a with state := .startRecord, fields := a.fields ++ [a.field], field := [] }
  | .inQuotedField => a
  | .quoteInQuotedField =>
      { a with state := .startRecord, fields := a.fields ++ [a.field], field := [] }
  | .eatCrnl => { a with state := .startRecord }

/-- After the sentinel, `Reader_iternext` returns the accumulated fields as a
record exactly when the machine is back at START_RECORD. -/
def emitIfDone (a : RAcc) : RAcc :=
  if a.err = none ∧ a.state = .startRecord then
    { a with records := a.records ++ [a.fields], fields := [] }
  else a

/-- Processing of one character of the (universal-newline) stream: the state
machine runs on the character; each `'\n'` ends a text-mode line, so the
end-of-line sentinel runs right after it and a finished record is emitted.
Once an error has been raised, processing stops. -/
def pstep (d : Char) (a : RAcc) (c : Char) : RAcc :=
  if a.err = none then
    let a1 := rstep d a c
    if c = '\n' then emitIfDone (rstepEOL a1) else a1
  else a

/-- Fresh accumulator. -/
def initAcc : RAcc := ⟨.startRecord, [], [], [], none⟩

/-- Accumulator between records: machine at START_RECORD with empty buffers
and the records read so far. -/
def cleanAcc (R : List (List (List Char))) : RAcc := ⟨.startRecord, [], [], R, none⟩

/-- End-of-input handling of `Reader_iternext`: a raised error aborts the
read; otherwise a pending field (`field_len != 0 || state == IN_QUOTED_FIELD`,
i.e. an unterminated quoted field) is saved and returned as a final record. -/
def csvParseFinish (a : RAcc) : Except String (List (List (List Char))) :=
  match a.err with
  | some e => .error e
  | none =>
      if a.state = .inQuotedField ∨ a.field ≠ [] then
        .ok (a.records ++ [a.fields ++ [a.field]])
      else
        .ok a.records

/-- `[row for row in reader]` over the whole (already newline-translated)
character stream.  If the stream does not end in `'\n'`, the last text-mode
line still gets its end-of-line sentinel (`pstep` fires it after each
`'\n'`, so only such a trailing line needs it here). -/
def csvParseContent (d : Char) (content : List Char) : Except String (List (List (List Char))) :=
  csvParseFinish
    (if content.getLast? = some '\n' ∨ content = [] then
      content.foldl (pstep d) initAcc
    else
      emitIfDone (rstepEOL (content.foldl (pstep d) initAcc)))

/-- String-level parse: universal-newline translation, then the reader. -/
def csvParseStr (d : Char) (content : String) : Except String (List (List String)) :=
  (csvParseContent d (pyUnivNL content.data)).map fun rs => rs.map fun r => r.map String.mk

/-! ### CSVHandler -/

/-- Dialect validation: the delimiter must be a 1-character string, otherwise
the `csv` module raises `TypeError`. -/
def pyDelimChar (delimiter : String) : Option Char :=
  match delimiter.data with
  | [c] => some c
  | _ => none

/-- Message of the `TypeError` raised for a bad delimiter. -/
def delimTypeErrMsg : String := "\"delimiter\" must be a 1-character string"

/-- `CSVHandler.load`: `open(file_path, "r")` first (a missing file is caught
and re-raised as `FileNotFoundError(f"CSV file not found: {file_path}")`, any
other open error propagates unchanged), then `csv.reader` validates the
delimiter, then all rows are read. -/
def CSVHandler.load (fs : FS) (file_path : String) (delimiter : String) :
    Except PyErr (List (List String)) :=
  match fs file_path with
  | .absent => .error (.fileNotFound ("CSV file not found: " ++ file_path))
  | .ioFail e => .error e
  | .file content =>
      match pyDelimChar delimiter with
      | none => .error (.typeError delimTypeErrMsg)
      | some d =>
          match csvParseStr d content with
          | .error m => .error (.csvError m)
          | .ok rows => .ok rows

/-- `CSVHandler.save`: `open(file_path, "w", newline="")` creates or
truncates the file, then `csv.writer` validates the delimiter (so a bad
delimiter leaves the file truncated and raises `TypeError`), then
`writerows(data)` writes the serialization.  Returns the new filesystem and
the raised error, if any. -/
def CSVHandler.save (fs : FS) (file_path : String) (data : List (List String))
    (delimiter : String) : FS × Option PyErr :=
  match fs file_path with
  | .ioFail e => (fs, some e)
  | _ =>
      let fsTrunc := updateFS fs file_path (.file "")
      match pyDelimChar delimiter with
      | none => (fsTrunc, some (.typeError delimTypeErrMsg))
      | some d => (updateFS fs file_path (.file (csvWriteContentStr d data)), none)

/-! ### Factory -/

/-- The handler classes of the repository (only `CSVHandler` exists; the
JSON/TOML entries are commented out in the source). -/
inductive HandlerClass where
  | csvHandler
  deriving DecidableEq, Repr

/-- A handler instance: its class and its object identity (Python allocates
a fresh object per construction; `objId` models `id(obj)`). -/
structure Handler where
  cls : HandlerClass
  objId : Nat
  deriving DecidableEq, Repr

/-- Dynamic dispatch of `load` on the instance's class. -/
def Handler.load (h : Handler) : FS → String → String → Except PyErr (List (List String)) :=
  match h.cls with
  | .csvHandler => CSVHandler.load

/-- Dynamic dispatch of `save` on the instance's class. -/
def Handler.save (h : Handler) : FS → String → List (List String) → String → FS × Option PyErr :=
  match h.cls with
  | .csvHandler => CSVHandler.save

/-- `HANDLER_CLASSES`: the static registry, a module-level constant mapping
data-source names to handler classes. -/
def HANDLER_CLASSES : List (String × HandlerClass) :=
  [("csv", HandlerClass.csvHandler)]

/-- `create_handler`: `HANDLER_CLASSES.get(data_source)`; a class is truthy
and `None` is falsy, so a hit constructs a fresh instance and a miss raises
`ValueError(f"Unsupported data source: {data_source}")`.  `nextId` threads
the allocator for object identities. -/
def create_handler (nextId : Nat) (data_source : String) : Except PyErr (Handler × Nat) :=
  match HANDLER_CLASSES.lookup data_source with
  | some cls => .ok (⟨cls, nextId⟩, nextId + 1)
  | none => .error (.valueError ("Unsupported data source: " ++ data_source))

/-- `';'`-join of a row of strings (used to state what a delimiter-mismatched
load returns). -/
def strJoinSemi (r : List String) : String :=
  String.mk (joinDelim ';' (r.map String.data))

/-- State of the reader right after consuming one rendered field: the closing
quote of a quoted field, or an unquoted field's last ordinary character (an
empty unquoted field leaves the machine waiting at START_FIELD). -/
def fieldEndState (d : Char) (f : List Char) : RState :=
  if csvNeedsQuote d f then .quoteInQuotedField
  else if f = [] then .startField else .inField

/-- One written record with its line terminator as the reader sees it after
universal-newline translation: `"\r\n"` has become `"\n"`. -/
def rowChunkNL (d : Char) (row : List (List Char)) : List Char :=
  csvRowBody d row ++ ['\n']

/-! ### Reader lemmas: how the state machine consumes written fields -/

/-- Characters that are not the delimiter, the quote, or a line break
accumulate into the current unquoted field. -/
theorem foldl_ordinary_inField (d : Char) :
    ∀ (l : List Char), (∀ c ∈ l, c ≠ d ∧ c ≠ '"' ∧ c ≠ '\n' ∧ c ≠ '\r') →
    ∀ (fld : List Char) (F : List (List Char)) (R : List (List (List Char))),
      List.foldl (pstep d) ⟨.inField, fld, F, R, none⟩ l = ⟨.inField, fld ++ l, F, R, none⟩ := by
  intro l
  induction l with
  | nil => intro _ fld F R; simp
  | cons c cs ih =>
      intro h fld F R
      obtain ⟨h1, h2, h3, h4⟩ := h c (List.mem_cons_self c cs)
      have hstep : pstep d ⟨.inField, fld, F, R, none⟩ c = ⟨.inField, fld ++ [c], F, R, none⟩ := by
        simp [pstep, rstep, h1, h3, h4]
      rw [List.foldl_cons, hstep, ih (fun x hx => h x (List.mem_cons_of_mem c hx))]
      simp

/-- The same from START_FIELD: the first ordinary character opens a new
unquoted field. -/
theorem foldl_ordinary_startField (d : Char) (l : List Char)
    (h : ∀ c ∈ l, c ≠ d ∧ c ≠ '"' ∧ c ≠ '\n' ∧ c ≠ '\r')
    (fld : List Char) (F : List (List Char)) (R : List (List (List Char))) :
    List.foldl (pstep d) ⟨.startField, fld, F, R, none⟩ l =
      ⟨if l = [] then .startField else .inField, fld ++ l, F, R, none⟩ := by
  cases l with
  | nil => simp
  | cons c cs =>
      obtain ⟨h1, h2, h3, h4⟩ := h c (List.mem_cons_self c cs)
      have hstep : pstep d ⟨.startField, fld, F, R, none⟩ c = ⟨.inField, fld ++ [c], F, R, none⟩ := by
        simp [pstep, rstep, startFieldStep, h1, h2, h3, h4]
      rw [List.foldl_cons, hstep,
        foldl_ordinary_inField d cs (fun x hx => h x (List.mem_cons_of_mem c hx))]
      simp

/-- Inside a quoted field, the doubled-quote escaping of `f` reconstructs
exactly `f` and returns to IN_QUOTED_FIELD. -/
theorem foldl_quoted_content (d : Char) :
    ∀ (l : List Char), (∀ c ∈ l, c ≠ '\r') →
    ∀ (fld : List Char) (F : List (List Char)) (R : List (List (List Char))),
      List.foldl (pstep d) ⟨.inQuotedField, fld, F, R, none⟩ (csvEscapeQuotes l) =
        ⟨.inQuotedField, fld ++ l, F, R, none⟩ := by
  intro l
  induction l with
  | nil => intro _ fld F R; simp [csvEscapeQuotes]
  | cons c cs ih =>
      intro h fld F R
      have hcr : c ≠ '\r' := h c (List.mem_cons_self c cs)
      have htail : ∀ x ∈ cs, x ≠ '\r' := fun x hx => h x (List.mem_cons_of_mem c hx)
      by_cases hq : c = '"'
      · subst hq
        have hs1 : pstep d ⟨.inQuotedField, fld, F, R, none⟩ '"' =
            ⟨.quoteInQuotedField, fld, F, R, none⟩ := by
          have : ('"' : Char) ≠ '\n' := by decide
          simp [pstep, rstep, this]
        have hs2 : pstep d ⟨.quoteInQuotedField, fld, F, R, none⟩ '"' =
            ⟨.inQuotedField, fld ++ ['"'], F, R, none⟩ := by
          have : ('"' : Char) ≠ '\n' := by decide
          simp [pstep, rstep, this]
        have hexp : csvEscapeQuotes ('"' :: cs) = '"' :: '"' :: csvEscapeQuotes cs := by
          simp [csvEscapeQuotes]
        rw [hexp, List.foldl_cons, hs1, List.foldl_cons, hs2, ih htail]
        simp
      · have hs : pstep d ⟨.inQuotedField, fld, F, R, none⟩ c =
            ⟨.inQuotedField, fld ++ [c], F, R, none⟩ := by
          by_cases hn : c = '\n'
          · subst hn
            have : ('\n' : Char) ≠ '"' := by decide
            simp [pstep, rstep, this, rstepEOL, emitIfDone]
          · simp [pstep, rstep, hq, hn]
        have hexp : csvEscapeQuotes (c :: cs) = c :: csvEscapeQuotes cs := by
          simp [csvEscapeQuotes, hq]
        rw [hexp, List.foldl_cons, hs, ih htail]
        simp

/-- Consuming one rendered field from START_FIELD accumulates exactly that
field and ends in `fieldEndState`. -/
theorem foldl_renderField (d : Char) (f : List Char)
    (hd : d ≠ '"' ∧ d ≠ '\n' ∧ d ≠ '\r') (hf : ∀ c ∈ f, c ≠ '\r')
    (F : List (List Char)) (R : List (List (List Char))) :
    List.foldl (pstep d) ⟨.startField, [], F, R, none⟩ (csvRenderField d f) =
      ⟨fieldEndState d f, f, F, R, none⟩ := by
  obtain ⟨hd1, hd2, hd3⟩ := hd
  by_cases hq : csvNeedsQuote d f
  · have hexp : csvRenderField d f = '"' :: (csvEscapeQuotes f ++ ['"']) := by
      simp [csvRenderField, hq]
    have hs1 : pstep d ⟨.startField, [], F, R, none⟩ '"' = ⟨.inQuotedField, [], F, R, none⟩ := by
      have h1 : ('"' : Char) ≠ '\n' := by decide
      have h2 : ('"' : Char) ≠ '\r' := by decide
      simp [pstep, rstep, startFieldStep, h1, h2]
    have hs2 : pstep d ⟨.inQuotedField, f, F, R, none⟩ '"' =
        ⟨.quoteInQuotedField, f, F, R, none⟩ := by
      have h1 : ('"' : Char) ≠ '\n' := by decide
      simp [pstep, rstep, h1]
    rw [hexp, List.foldl_cons, hs1, List.foldl_append, foldl_quoted_content d f hf]
    simp only [List.nil_append]
    rw [List.foldl_cons, hs2, List.foldl_nil]
    simp [fieldEndState, hq]
  · have hexp : csvRenderField d f = f := by simp [csvRenderField, hq]
    have hord : ∀ c ∈ f, c ≠ d ∧ c ≠ '"' ∧ c ≠ '\n' ∧ c ≠ '\r' := by
      intro c hc
      by_contra hcon
      apply hq
      simp only [csvNeedsQuote, List.any_eq_true]
      refine ⟨c, hc, ?_⟩
      simp only [Bool.or_eq_true, decide_eq_true_eq]
      push_neg at hcon
      tauto
    rw [hexp, foldl_ordinary_startField d f hord]
    simp [fieldEndState, hq]

/-- The delimiter ends the pending field and waits for the next one (from a
record/field boundary or from either way a rendered field can end). -/
theorem pstep_delim (d : Char) (hd : d ≠ '"' ∧ d ≠ '\n' ∧ d ≠ '\r')
    (st : RState)
    (hst : st = .startRecord ∨ st = .startField ∨ st = .inField ∨ st = .quoteInQuotedField)
    (fld : List Char) (F : List (List Char)) (R : List (List (List Char))) :
    pstep d ⟨st, fld, F, R, none⟩ d = ⟨.startField, [], F ++ [fld], R, none⟩ := by
  obtain ⟨hd1, hd2, hd3⟩ := hd
  rcases hst with h | h | h | h <;> subst h <;>
    simp [pstep, rstep, startFieldStep, hd1, hd2, hd3]

/-- A line feed ends the pending field, the end-of-line sentinel fires, and
the finished record is emitted. -/
theorem pstep_newline (d : Char) (hd : d ≠ '"' ∧ d ≠ '\n' ∧ d ≠ '\r')
    (st : RState) (hst : st = .startField ∨ st = .inField ∨ st = .quoteInQuotedField)
    (fld : List Char) (F : List (List Char)) (R : List (List (List Char))) :
    pstep d ⟨st, fld, F, R, none⟩ '\n' = ⟨.startRecord, [], [], R ++ [F ++ [fld]], none⟩ := by
  obtain ⟨hd1, hd2, hd3⟩ := hd
  have hnd : ('\n' : Char) ≠ d := fun h => hd2 h.symm
  have hq : ('\n' : Char) ≠ '"' := by decide
  rcases hst with h | h | h <;> subst h <;>
    simp [pstep, rstep, startFieldStep, rstepEOL, emitIfDone, hnd, hq]

/-- On anything but a line break, START_RECORD behaves as START_FIELD
(CPython's fall-through). -/
theorem pstep_startRecord_eq (d c : Char) (hc : c ≠ '\n' ∧ c ≠ '\r')
    (fld : List Char) (F : List (List Char)) (R : List (List (List Char))) :
    pstep d ⟨.startRecord, fld, F, R, none⟩ c = pstep d ⟨.startField, fld, F, R, none⟩ c := by
  obtain ⟨h1, h2⟩ := hc
  simp [pstep, rstep, h1, h2]

/-- A field whose rendering needs no quoting contains no delimiter, quote, or
line-break character. -/
theorem ord_of_not_needsQuote (d : Char) (f : List Char) (hq : ¬ csvNeedsQuote d f = true) :
    ∀ c ∈ f, c ≠ d ∧ c ≠ '"' ∧ c ≠ '\n' ∧ c ≠ '\r' := by
  intro c hc
  by_contra hcon
  apply hq
  simp only [csvNeedsQuote, List.any_eq_true]
  refine ⟨c, hc, ?_⟩
  simp only [Bool.or_eq_true, decide_eq_true_eq]
  push_neg at hcon
  tauto

/-- A rendered field is empty exactly for the empty field. -/
theorem csvRenderField_eq_nil (d : Char) (f : List Char) :
    csvRenderField d f = [] ↔ f = [] := by
  constructor
  · intro h
    by_cases hq : csvNeedsQuote d f
    · rw [csvRenderField, if_pos hq] at h
      exact absurd h (by simp)
    · rwa [csvRenderField, if_neg hq] at h
  · intro h
    subst h
    simp [csvRenderField, csvNeedsQuote]

/-- The joined rendering of a nonempty row is empty exactly for the row with
one empty field. -/
theorem joinDelim_render_eq_nil (d : Char) (f : List Char) (fs : List (List Char)) :
    joinDelim d ((f :: fs).map (csvRenderField d)) = [] ↔ f :: fs = [[]] := by
  cases fs with
  | nil => simp [joinDelim, csvRenderField_eq_nil]
  | cons g gs => simp [joinDelim]

/-- The first character of a nonempty rendered field is never a line break. -/
theorem renderField_head (d : Char) (f : List Char) (c : Char) (rest : List Char)
    (h : csvRenderField d f = c :: rest) : c ≠ '\n' ∧ c ≠ '\r' := by
  by_cases hq : csvNeedsQuote d f
  · rw [csvRenderField, if_pos hq] at h
    have hc : c = '"' := by
      have := congrArg List.head? h
      simpa using this.symm
    subst hc
    refine ⟨by decide, by decide⟩
  · rw [csvRenderField, if_neg hq] at h
    have hc : c ∈ f := by rw [h]; exact List.mem_cons_self c rest
    have := ord_of_not_needsQuote d f hq c hc
    exact ⟨this.2.2.1, this.2.2.2⟩

/-- The first character of a nonempty row body is never a line break. -/
theorem rowBody_head (d : Char) (hd : d ≠ '\n' ∧ d ≠ '\r') (f : List Char)
    (fs : List (List Char)) (c : Char) (rest : List Char)
    (h : joinDelim d ((f :: fs).map (csvRenderField d)) = c :: rest) :
    c ≠ '\n' ∧ c ≠ '\r' := by
  cases fs with
  | nil =>
      have h' : csvRenderField d f = c :: rest := by simpa [joinDelim] using h
      exact renderField_head d f c rest h'
  | cons g gs =>
      have h' : csvRenderField d f ++ d :: joinDelim d ((g :: gs).map (csvRenderField d)) =
          c :: rest := by simpa [joinDelim] using h
      cases hr : csvRenderField d f with
      | nil =>
          rw [hr, List.nil_append] at h'
          have hc : c = d := (List.cons.injEq .. ▸ h').1.symm
          subst hc
          exact hd
      | cons x xs =>
          rw [hr, List.cons_append] at h'
          have hc : x = c := (List.cons.injEq .. ▸ h').1
          exact hc ▸ renderField_head d f x xs hr

/-- `fieldEndState` takes one of the three values the terminator lemmas
accept. -/
theorem fieldEndState_cases (d : Char) (f : List Char) :
    fieldEndState d f = .startField ∨ fieldEndState d f = .inField ∨
      fieldEndState d f = .quoteInQuotedField := by
  unfold fieldEndState
  split
  · right; right; rfl
  · split
    · left; rfl
    · right; left; rfl

/-- Consuming a row's joined rendered fields followed by the line feed, from
START_FIELD: every field is recovered and the record is emitted. -/
theorem foldl_rowFields (d : Char) (hd : d ≠ '"' ∧ d ≠ '\n' ∧ d ≠ '\r') :
    ∀ (fs : List (List Char)) (f : List Char),
      (∀ c ∈ f, c ≠ '\r') → (∀ g ∈ fs, ∀ c ∈ g, c ≠ '\r') →
      ∀ (F : List (List Char)) (R : List (List (List Char))),
        List.foldl (pstep d) ⟨.startField, [], F, R, none⟩
            (joinDelim d ((f :: fs).map (csvRenderField d)) ++ ['\n']) =
          ⟨.startRecord, [], [], R ++ [F ++ f :: fs], none⟩ := by
  intro fs
  induction fs with
  | nil =>
      intro f hf _ F R
      have hJ : joinDelim d ((f :: ([] : List (List Char))).map (csvRenderField d)) =
          csvRenderField d f := by simp [joinDelim]
      rw [hJ, List.foldl_append, foldl_renderField d f hd hf F R, List.foldl_cons,
        pstep_newline d hd _ (fieldEndState_cases d f) f F R, List.foldl_nil]
  | cons g gs ih =>
      intro f hf hgs F R
      have hJ : joinDelim d ((f :: g :: gs).map (csvRenderField d)) =
          csvRenderField d f ++ d :: joinDelim d ((g :: gs).map (csvRenderField d)) := by
        simp [joinDelim]
      have hsplit : (csvRenderField d f ++ d :: joinDelim d ((g :: gs).map (csvRenderField d)))
          ++ ['\n'] =
          csvRenderField d f ++ [d] ++ (joinDelim d ((g :: gs).map (csvRenderField d))
            ++ ['\n']) := by simp
      have ih' := ih g (hgs g (List.mem_cons_self g gs))
        (fun x hx => hgs x (List.mem_cons_of_mem g hx)) (F ++ [f]) R
      rw [hJ, hsplit]
      simp only [List.foldl_append, List.foldl_cons, List.foldl_nil] at ih' ⊢
      rw [foldl_renderField d f hd hf F R,
        pstep_delim d hd _ (Or.inr (fieldEndState_cases d f)) f F R, ih']
      simp

/-- Consuming one complete translated record from a record boundary appends
exactly that record. -/
theorem foldl_rowChunk (d : Char) (hd : d ≠ '"' ∧ d ≠ '\n' ∧ d ≠ '\r')
    (row : List (List Char)) (hrow : ∀ f ∈ row, ∀ c ∈ f, c ≠ '\r')
    (R : List (List (List Char))) :
    List.foldl (pstep d) (cleanAcc R) (rowChunkNL d row) = cleanAcc (R ++ [row]) := by
  obtain ⟨hd1, hd2, hd3⟩ := hd
  cases row with
  | nil =>
      have hb : csvRowBody d ([] : List (List Char)) = [] := by
        simp [csvRowBody, joinDelim]
      rw [rowChunkNL, hb, List.nil_append]
      simp [cleanAcc, pstep, rstep, rstepEOL, emitIfDone]
  | cons f fs =>
      by_cases hnil : joinDelim d ((f :: fs).map (csvRenderField d)) = []
      · have hrow11 : f :: fs = [[]] := (joinDelim_render_eq_nil d f fs).mp hnil
        have hb : csvRowBody d (f :: fs) = ['"', '"'] := by
          unfold csvRowBody
          rw [if_pos ⟨List.cons_ne_nil f fs, hnil⟩]
        have hs1 : pstep d (cleanAcc R) '"' = ⟨.inQuotedField, [], [], R, none⟩ := by
          have h1 : ('"' : Char) ≠ '\n' := by decide
          have h2 : ('"' : Char) ≠ '\r' := by decide
          simp [cleanAcc, pstep, rstep, startFieldStep, h1, h2]
        have hs2 : pstep d ⟨.inQuotedField, [], [], R, none⟩ '"' =
            ⟨.quoteInQuotedField, [], [], R, none⟩ := by
          have h1 : ('"' : Char) ≠ '\n' := by decide
          simp [pstep, rstep, h1]
        have hs3 : pstep d ⟨.quoteInQuotedField, [], [], R, none⟩ '\n' =
            ⟨.startRecord, [], [], R ++ [[([] : List Char)]], none⟩ :=
          pstep_newline d ⟨hd1, hd2, hd3⟩ _ (Or.inr (Or.inr rfl)) [] [] R
        rw [rowChunkNL, hb, hrow11]
        show List.foldl (pstep d) (cleanAcc R) ['"', '"', '\n'] = _
        rw [List.foldl_cons, hs1, List.foldl_cons, hs2, List.foldl_cons, hs3, List.foldl_nil]
        rfl
      · obtain ⟨c0, rest, hbody⟩ : ∃ c0 rest,
            joinDelim d ((f :: fs).map (csvRenderField d)) = c0 :: rest := by
          cases hJ : joinDelim d ((f :: fs).map (csvRenderField d)) with
          | nil => exact absurd hJ hnil
          | cons x xs => exact ⟨x, xs, rfl⟩
        have hc0 : c0 ≠ '\n' ∧ c0 ≠ '\r' := rowBody_head d ⟨hd2, hd3⟩ f fs c0 rest hbody
        have hb : csvRowBody d (f :: fs) = joinDelim d ((f :: fs).map (csvRenderField d)) := by
          unfold csvRowBody
          rw [if_neg]
          intro hcon
          exact hnil hcon.2
        have htrans : pstep d (cleanAcc R) c0 = pstep d ⟨.startField, [], [], R, none⟩ c0 :=
          pstep_startRecord_eq d c0 hc0 [] [] R
        have hfs : ∀ c ∈ f, c ≠ '\r' := hrow f (List.mem_cons_self f fs)
        have hgs : ∀ g ∈ fs, ∀ c ∈ g, c ≠ '\r' :=
          fun g hg => hrow g (List.mem_cons_of_mem f hg)
        calc List.foldl (pstep d) (cleanAcc R) (rowChunkNL d (f :: fs))
            = List.foldl (pstep d) (pstep d (cleanAcc R) c0) (rest ++ ['\n']) := by
              rw [rowChunkNL, hb, hbody, List.cons_append, List.foldl_cons]
          _ = List.foldl (pstep d) ⟨.startField, [], [], R, none⟩
                (joinDelim d ((f :: fs).map (csvRenderField d)) ++ ['\n']) := by
              rw [htrans, hbody, List.cons_append, List.foldl_cons]
          _ = cleanAcc (R ++ [f :: fs]) := by
              rw [foldl_rowFields d ⟨hd1, hd2, hd3⟩ fs f hfs hgs [] R]
              rfl

/-- Consuming a sequence of translated records from a record boundary
appends exactly those records. -/
theorem foldl_rowChunks (d : Char) (hd : d ≠ '"' ∧ d ≠ '\n' ∧ d ≠ '\r') :
    ∀ (rows : List (List (List Char))),
      (∀ row ∈ rows, ∀ f ∈ row, ∀ c ∈ f, c ≠ '\r') →
      ∀ (R : List (List (List Char))),
        List.foldl (pstep d) (cleanAcc R) ((rows.map (rowChunkNL d)).flatten) =
          cleanAcc (R ++ rows) := by
  intro rows
  induction rows with
  | nil => intro _ R; simp
  | cons r rs ih =>
      intro h R
      rw [List.map_cons, List.flatten_cons, List.foldl_append,
        foldl_rowChunk d hd r (h r (List.mem_cons_self r rs)) R,
        ih (fun x hx => h x (List.mem_cons_of_mem r hx)) (R ++ [r])]
      simp

/-! ### Universal-newline lemmas -/

/-- Translation passes over a carriage-return-free prefix unchanged. -/
theorem pyUnivNL_append_no_cr : ∀ (xs ys : List Char), (∀ c ∈ xs, c ≠ '\r') →
    pyUnivNL (xs ++ ys) = xs ++ pyUnivNL ys := by
  intro xs
  induction xs with
  | nil => intro ys _; rfl
  | cons x xs ih =>
      intro ys h
      have hx : x ≠ '\r' := h x (List.mem_cons_self x xs)
      cases hxy : xs ++ ys with
      | nil =>
          obtain ⟨hxs, hys⟩ := List.append_eq_nil.mp hxy
          subst hxs
          subst hys
          simp [pyUnivNL, hx]
      | cons z zs =>
          rw [List.cons_append, hxy]
          rw [show pyUnivNL (x :: z :: zs) = x :: pyUnivNL (z :: zs) by simp [pyUnivNL, hx]]
          rw [← hxy, ih ys (fun c hc => h c (List.mem_cons_of_mem x hc))]
          rfl

/-- Translation of a written line terminator. -/
theorem pyUnivNL_crlf (cs : List Char) : pyUnivNL ('\r' :: '\n' :: cs) = '\n' :: pyUnivNL cs := by
  simp [pyUnivNL]

/-- Characters of an escaped field come from the field or are quotes. -/
theorem mem_csvEscapeQuotes : ∀ (f : List Char) (c : Char),
    c ∈ csvEscapeQuotes f → c ∈ f ∨ c = '"' := by
  intro f
  induction f with
  | nil => intro c hc; simp [csvEscapeQuotes] at hc
  | cons x xs ih =>
      intro c hc
      by_cases hx : x = '"'
      · subst hx
        simp only [csvEscapeQuotes, if_pos rfl] at hc
        rcases List.mem_cons.mp hc with h | hc2
        · exact Or.inr h
        · rcases List.mem_cons.mp hc2 with h | hc3
          · exact Or.inr h
          · rcases ih c hc3 with h | h
            · exact Or.inl (List.mem_cons_of_mem _ h)
            · exact Or.inr h
      · simp only [csvEscapeQuotes, if_neg hx] at hc
        rcases List.mem_cons.mp hc with h | hc2
        · exact Or.inl (h ▸ List.mem_cons_self x xs)
        · rcases ih c hc2 with h | h
          · exact Or.inl (List.mem_cons_of_mem _ h)
          · exact Or.inr h

/-- Characters of a rendered field come from the field or are quotes. -/
theorem mem_csvRenderField (d : Char) (f : List Char) (c : Char)
    (hc : c ∈ csvRenderField d f) : c ∈ f ∨ c = '"' := by
  by_cases hq : csvNeedsQuote d f
  · rw [csvRenderField, if_pos hq] at hc
    rcases List.mem_cons.mp hc with h | hc2
    · exact Or.inr h
    · rcases List.mem_append.mp hc2 with h | h
      · exact mem_csvEscapeQuotes f c h
      · exact Or.inr (by simpa using h)
  · rw [csvRenderField, if_neg hq] at hc
    exact Or.inl hc

/-- Characters of a delimiter-joined list are the delimiter or come from the
joined pieces. -/
theorem mem_joinDelim (d : Char) : ∀ (l : List (List Char)) (c : Char),
    c ∈ joinDelim d l → c = d ∨ ∃ x ∈ l, c ∈ x := by
  intro l
  induction l with
  | nil => intro c hc; simp [joinDelim] at hc
  | cons f fs ih =>
      intro c hc
      cases fs with
      | nil =>
          rw [show joinDelim d [f] = f from rfl] at hc
          exact Or.inr ⟨f, List.mem_cons_self f [], hc⟩
      | cons g gs =>
          rw [show joinDelim d (f :: g :: gs) = f ++ d :: joinDelim d (g :: gs) from rfl] at hc
          rcases List.mem_append.mp hc with h | h
          · exact Or.inr ⟨f, List.mem_cons_self f (g :: gs), h⟩
          · rcases List.mem_cons.mp h with h | h
            · exact Or.inl h
            · rcases ih c h with h | ⟨x, hx, hcx⟩
              · exact Or.inl h
              · exact Or.inr ⟨x, List.mem_cons_of_mem f hx, hcx⟩

/-- A row body contains no carriage return when the delimiter is not one and
no field contains one. -/
theorem no_cr_csvRowBody (d : Char) (hd : d ≠ '\r') (row : List (List Char))
    (hrow : ∀ f ∈ row, ∀ c ∈ f, c ≠ '\r') : ∀ c ∈ csvRowBody d row, c ≠ '\r' := by
  intro c hc
  unfold csvRowBody at hc
  split at hc
  · have : c = '"' := by
      rcases List.mem_cons.mp hc with h | h
      · exact h
      · simpa using h
    subst this
    decide
  · rcases mem_joinDelim d _ c hc with h | ⟨x, hx, hcx⟩
    · exact h ▸ hd
    · obtain ⟨f, hf, rfl⟩ := List.mem_map.mp hx
      rcases mem_csvRenderField d f c hcx with h | h
      · exact hrow f hf c h
      · subst h; decide

/-- Universal-newline translation of the written file turns each `"\r\n"`
terminator into `"\n"` and changes nothing else. -/
theorem pyUnivNL_csvWriteContent (d : Char) (hd : d ≠ '\r') :
    ∀ (rows : List (List (List Char))),
      (∀ row ∈ rows, ∀ f ∈ row, ∀ c ∈ f, c ≠ '\r') →
      pyUnivNL (csvWriteContent d rows) = (rows.map (rowChunkNL d)).flatten := by
  intro rows
  induction rows with
  | nil => intro _; rfl
  | cons r rs ih =>
      intro h
      have hsh : csvWriteContent d (r :: rs) =
          csvRowBody d r ++ ('\r' :: '\n' :: csvWriteContent d rs) := by
        rw [csvWriteContent, List.map_cons, List.flatten_cons, csvRenderRow]
        simp [csvWriteContent]
      rw [hsh, pyUnivNL_append_no_cr _ _ (no_cr_csvRowBody d hd r (h r (List.mem_cons_self r rs))),
        pyUnivNL_crlf, ih (fun x hx => h x (List.mem_cons_of_mem r hx)),
        List.map_cons, List.flatten_cons, rowChunkNL]
      simp

/-! ### Reassembling the reader -/

/-- If consuming the whole stream lands back at a record boundary with
records `out`, and the stream is empty or ends in a line feed, the reader
returns exactly `out`. -/
theorem csvParseContent_eq_ok (d : Char) (content : List Char)
    (out : List (List (List Char)))
    (hend : content = [] ∨ content.getLast? = some '\n')
    (hfold : content.foldl (pstep d) initAcc = cleanAcc out) :
    csvParseContent d content = .ok out := by
  have hcond : content.getLast? = some '\n' ∨ content = [] := hend.elim .inr .inl
  rw [csvParseContent, if_pos hcond, hfold]
  rw [csvParseFinish]
  simp [cleanAcc]

/-- A nonempty sequence of translated records ends in a line feed. -/
theorem chunks_concat (d : Char) : ∀ (rs : List (List (List Char))) (r : List (List Char)),
    ∃ z, ((r :: rs).map (rowChunkNL d)).flatten = z ++ ['\n'] := by
  intro rs
  induction rs with
  | nil => intro r; exact ⟨csvRowBody d r, by simp [rowChunkNL]⟩
  | cons s ss ih =>
      intro r
      obtain ⟨z, hz⟩ := ih s
      refine ⟨csvRowBody d r ++ '\n' :: z, ?_⟩
      rw [List.map_cons, List.flatten_cons, hz, rowChunkNL]
      simp

/-- Character-stream round trip: parsing a written file (after the
universal-newline translation performed by `open`) recovers the rows. -/
theorem csvParse_write (d : Char) (hd : d ≠ '"' ∧ d ≠ '\n' ∧ d ≠ '\r')
    (rows : List (List (List Char)))
    (hrows : ∀ row ∈ rows, ∀ f ∈ row, ∀ c ∈ f, c ≠ '\r') :
    csvParseContent d (pyUnivNL (csvWriteContent d rows)) = .ok rows := by
  rw [pyUnivNL_csvWriteContent d hd.2.2 rows hrows]
  apply csvParseContent_eq_ok
  · cases rows with
    | nil => exact Or.inl rfl
    | cons r rs =>
        obtain ⟨z, hz⟩ := chunks_concat d rs r
        exact Or.inr (by rw [hz, List.getLast?_concat])
  · have h := foldl_rowChunks d hd rows hrows []
    simpa [cleanAcc, initAcc] using h

/-! ### Gluing the handler operations -/

/-- `save` on a writable path with a valid delimiter replaces the file's
content with the serialization and raises nothing. -/
theorem save_ok (fs : FS) (p : String) (D : List (List String)) (delim : String) (d : Char)
    (hdelim : pyDelimChar delim = some d) (hfs : ∀ e, fs p ≠ .ioFail e) :
    CSVHandler.save fs p D delim = (updateFS fs p (.file (csvWriteContentStr d D)), none) := by
  cases hfp : fs p with
  | ioFail e => exact absurd hfp (hfs e)
  | absent => simp [CSVHandler.save, hfp, hdelim]
  | file c => simp [CSVHandler.save, hfp, hdelim]

/-- `load` on an existing file with a valid delimiter parses the content. -/
theorem load_file_eq (fs : FS) (p : String) (content : String) (delim : String) (d : Char)
    (hfp : fs p = .file content) (hdelim : pyDelimChar delim = some d) :
    CSVHandler.load fs p delim =
      (match csvParseStr d content with
       | .error m => .error (.csvError m)
       | .ok rows => .ok rows) := by
  simp [CSVHandler.load, hfp, hdelim]

/-- String-level round trip of the csv serialization. -/
theorem csvParseStr_write (d : Char) (hd : d ≠ '"' ∧ d ≠ '\n' ∧ d ≠ '\r')
    (D : List (List String)) (hD : ∀ r ∈ D, ∀ f ∈ r, ∀ c ∈ f.data, c ≠ '\r') :
    csvParseStr d (csvWriteContentStr d D) = .ok D := by
  have hfields : ∀ row ∈ D.map fun r => r.map String.data, ∀ f ∈ row, ∀ c ∈ f, c ≠ '\r' := by
    intro row hrow f hf c hc
    obtain ⟨r, hr, rfl⟩ := List.mem_map.mp hrow
    obtain ⟨s, hs, rfl⟩ := List.mem_map.mp hf
    exact hD r hr s hs c hc
  have hdata : (csvWriteContentStr d D).data =
      csvWriteContent d (D.map fun r => r.map String.data) := rfl
  rw [csvParseStr, hdata, csvParse_write d hd _ hfields]
  have hms : (String.mk ∘ String.data) = id := funext fun s => rfl
  have hrow : ∀ r : List String, (r.map String.data).map String.mk = r := by
    intro r
    rw [List.map_map, hms, List.map_id]
  show Except.ok (((D.map fun r => r.map String.data)).map fun r => r.map String.mk) = .ok D
  rw [List.map_map]
  have hid : (D.map ((fun r : List (List Char) => r.map String.mk) ∘
      fun r : List String => r.map String.data)) = D := by
    have hfun : ((fun r : List (List Char) => r.map String.mk) ∘
        fun r : List String => r.map String.data) =
        fun r : List String => (r.map String.data).map String.mk := rfl
    rw [hfun]
    simp [hrow]
  rw [hid]

/-! ### Claim C1 -/

/-- Claim C1 as stated quantifies over every single-character delimiter; it
fails for the delimiter `"\n"`: the writer ends records with `"\r\n"` and
does not quote fields for containing the delimiter-as-line-break, so loading
splits every field into its own row. -/
theorem csv_round_trip_counterexample :
    CSVHandler.load (CSVHandler.save (fun _ => FileState.absent) "t.csv"
        [["a", "b"], ["c", "d"]] "\n").1 "t.csv" "\n" =
      .ok [["a"], ["b"], ["c"], ["d"]] ∧
    CSVHandler.load (CSVHandler.save (fun _ => FileState.absent) "t.csv"
        [["a", "b"], ["c", "d"]] "\n").1 "t.csv" "\n" ≠
      .ok [["a", "b"], ["c", "d"]] := by
  constructor
  · decide
  · decide

/-- Claim C1 (amended): round-trip identity for every single-character
delimiter other than the quote character `'"'` and the line-break characters
`'\n'`/`'\r'`, and for data none of whose fields contains a carriage return
(the one line-break character whose quoting the reader's universal-newline
file mode does not carry through; embedded delimiters, quotes and line feeds
are handled by quoting). -/
theorem csv_save_load_round_trip (fs : FS) (p : String) (D : List (List String))
    (delim : String) (d : Char) (hdelim : delim.data = [d])
    (hd : d ≠ '"' ∧ d ≠ '\n' ∧ d ≠ '\r')
    (hD : ∀ r ∈ D, ∀ f ∈ r, ∀ c ∈ f.data, c ≠ '\r')
    (hfs : ∀ e, fs p ≠ FileState.ioFail e) :
    CSVHandler.load (CSVHandler.save fs p D delim).1 p delim = .ok D := by
  have hpd : pyDelimChar delim = some d := by
    unfold pyDelimChar
    rw [hdelim]
  rw [save_ok fs p D delim d hpd hfs]
  have hup : (updateFS fs p (.file (csvWriteContentStr d D))) p =
      .file (csvWriteContentStr d D) := by simp [updateFS]
  rw [load_file_eq _ p (csvWriteContentStr d D) delim d hup hpd,
    csvParseStr_write d hd D hD]

/-- Witness: the amended round trip at the spec's concrete example,
`[["a","b"],["c","d"]]` with delimiter `","`. -/
theorem csv_save_load_round_trip_witness :
    CSVHandler.load (CSVHandler.save (fun _ => FileState.absent) "data.csv"
        [["a", "b"], ["c", "d"]] ",").1 "data.csv" "," = .ok [["a", "b"], ["c", "d"]] :=
  csv_save_load_round_trip (fun _ => FileState.absent) "data.csv" [["a", "b"], ["c", "d"]]
    "," ',' (by decide) (by decide) (by decide) (fun e h => nomatch h)

/-! ### Claim C2 -/

/-- Claim C2: loading a missing path fails with `FileNotFoundError` whose
message embeds the requested path, whatever the delimiter argument is (the
failing `open` precedes delimiter validation). -/
theorem load_missing_file (fs : FS) (p : String) (delimiter : String)
    (h : fs p = FileState.absent) :
    CSVHandler.load fs p delimiter = .error (.fileNotFound ("CSV file not found: " ++ p)) ∧
    ∃ pre suf : List Char, ("CSV file not found: " ++ p).data = pre ++ p.data ++ suf := by
  refine ⟨?_, ("CSV file not found: ").data, [], ?_⟩
  · simp [CSVHandler.load, h]
  · simp

/-- Witness for C2 at the spec's example path. -/
theorem load_missing_file_witness :
    CSVHandler.load (fun _ => FileState.absent) "/nonexistent/path.csv" "," =
      .error (.fileNotFound ("CSV file not found: " ++ "/nonexistent/path.csv")) :=
  (load_missing_file (fun _ => FileState.absent) "/nonexistent/path.csv" "," rfl).1

/-! ### Claim C3 -/

/-- Claim C3: any key other than `"csv"` (lookup is case-sensitive exact
match) fails with `ValueError` whose message names the requested key. -/
theorem create_handler_unregistered (n : Nat) (key : String) (h : key ≠ "csv") :
    create_handler n key = .error (.valueError ("Unsupported data source: " ++ key)) ∧
    ∃ pre : List Char, ("Unsupported data source: " ++ key).data = pre ++ key.data := by
  have hlk : HANDLER_CLASSES.lookup key = none := by
    have hb : (key == "csv") = false := beq_eq_false_iff_ne.mpr h
    simp [HANDLER_CLASSES, List.lookup, hb]
  refine ⟨by simp [create_handler, hlk], ("Unsupported data source: ").data, by simp⟩

/-- Witness for C3 at the spec's example key `"xml"`. -/
theorem create_handler_unregistered_witness :
    create_handler 0 "xml" = .error (.valueError ("Unsupported data source: " ++ "xml")) :=
  (create_handler_unregistered 0 "xml" (by decide)).1

/-! ### Claim C4 -/

/-- Claim C4: `create_handler "csv"` succeeds with a `CSVHandler` instance
whose `load` and `save` are CSVHandler's, and a second call returns a
distinct fresh instance (no caching). -/
theorem create_handler_csv_fresh (n : Nat) :
    ∃ (h1 h2 : Handler) (n1 n2 : Nat),
      create_handler n "csv" = .ok (h1, n1) ∧
      create_handler n1 "csv" = .ok (h2, n2) ∧
      h1.cls = .csvHandler ∧ h2.cls = .csvHandler ∧
      Handler.load h1 = CSVHandler.load ∧ Handler.save h1 = CSVHandler.save ∧
      h1 ≠ h2 := by
  refine ⟨⟨.csvHandler, n⟩, ⟨.csvHandler, n + 1⟩, n + 1, n + 2, ?_, ?_, rfl, rfl, rfl, rfl, ?_⟩
  · simp [create_handler, HANDLER_CLASSES, List.lookup]
  · simp [create_handler, HANDLER_CLASSES, List.lookup]
  · intro hcon
    have : n = n + 1 := congrArg Handler.objId hcon
    omega

/-! ### Claim C5 -/

/-- Claim C5: an open failure other than file-not-found propagates to the
caller unchanged: the very same error value, so neither its kind nor its
message is altered. -/
theorem load_propagates_io_errors (fs : FS) (p : String) (delimiter : String) (e : PyErr)
    (h : fs p = FileState.ioFail e) :
    CSVHandler.load fs p delimiter = .error e := by
  simp [CSVHandler.load, h]

/-- Witness for C5 with a permission error. -/
theorem load_propagates_io_errors_witness :
    CSVHandler.load (fun _ => FileState.ioFail (.osError "Permission denied"))
      "secret.csv" "," = .error (.osError "Permission denied") :=
  load_propagates_io_errors _ "secret.csv" "," _ rfl

/-! ### Claim C6 -/

/-- Claim C6: `save` fully replaces the previous content (truncate, never
append): the resulting file state is the serialization of the data alone,
identical whatever filesystem and prior content the call started from. -/
theorem save_overwrites (fs : FS) (p : String) (D : List (List String))
    (delim : String) (d : Char) (hdelim : delim.data = [d])
    (hfs : ∀ e, fs p ≠ FileState.ioFail e) :
    (CSVHandler.save fs p D delim).1 p = .file (csvWriteContentStr d D) ∧
    (CSVHandler.save fs p D delim).2 = none ∧
    ∀ (fs2 : FS) (p2 : String), (∀ e, fs2 p2 ≠ FileState.ioFail e) →
      (CSVHandler.save fs2 p2 D delim).1 p2 = (CSVHandler.save fs p D delim).1 p := by
  have hpd : pyDelimChar delim = some d := by
    unfold pyDelimChar
    rw [hdelim]
  have h1 := save_ok fs p D delim d hpd hfs
  refine ⟨?_, ?_, ?_⟩
  · rw [h1]
    simp [updateFS]
  · rw [h1]
  · intro fs2 p2 hfs2
    rw [h1, save_ok fs2 p2 D delim d hpd hfs2]
    simp [updateFS]

/-- Witness for C6: overwriting a file that held other content before. -/
theorem save_overwrites_witness :
    (CSVHandler.save (fun _ => FileState.file "old content") "t.csv" [["x"]] ",").1 "t.csv" =
      .file (csvWriteContentStr ',' [["x"]]) :=
  (save_overwrites (fun _ => FileState.file "old content") "t.csv" [["x"]] "," ','
    (by decide) (fun e h => nomatch h)).1

/-! ### Claim C8 -/

/-- Claim C8: the registry is the module-level constant holding exactly the
key `"csv"`; `create_handler` succeeds exactly on that key (case-sensitive
exact match).  In the pure embedding the registry is a constant, so no
operation can add, remove or change an entry; there is no registration
interface. -/
theorem registry_static :
    HANDLER_CLASSES = [("csv", HandlerClass.csvHandler)] ∧
    (∀ key : String, (HANDLER_CLASSES.lookup key).isSome ↔ key = "csv") ∧
    (∀ (n : Nat) (key : String), (∃ x, create_handler n key = .ok x) ↔ key = "csv") := by
  have hlknone : ∀ key : String, key ≠ "csv" → HANDLER_CLASSES.lookup key = none := by
    intro key h
    have hb : (key == "csv") = false := beq_eq_false_iff_ne.mpr h
    simp [HANDLER_CLASSES, List.lookup, hb]
  refine ⟨rfl, ?_, ?_⟩
  · intro key
    constructor
    · intro hs
      by_contra h
      rw [hlknone key h] at hs
      simp at hs
    · intro h
      subst h
      simp [HANDLER_CLASSES, List.lookup]
  · intro n key
    constructor
    · rintro ⟨x, hx⟩
      by_contra h
      simp [create_handler, hlknone key h] at hx
    · intro h
      subst h
      exact ⟨(⟨.csvHandler, n⟩, n + 1), by simp [create_handler, HANDLER_CLASSES, List.lookup]⟩

/-! ### Claim C9 -/

/-- Claim C9: a delimiter that is not a 1-character string makes the `csv`
module raise `TypeError` before any parsing or writing: `load` on an existing
file raises it; `save` raises it right after the truncating `open`, so no
data has been written; and for a 1-character delimiter this branch is
unreachable (validation succeeds and `load` can only raise `FileNotFoundError`
or a `_csv.Error`, never this `TypeError`). -/
theorem invalid_delimiter_type_error :
    (∀ (fs : FS) (p content delim : String), fs p = .file content →
      pyDelimChar delim = none →
      CSVHandler.load fs p delim = .error (.typeError delimTypeErrMsg)) ∧
    (∀ (fs : FS) (p delim : String) (data : List (List String)),
      (∀ e, fs p ≠ .ioFail e) → pyDelimChar delim = none →
      CSVHandler.save fs p data delim =
        (updateFS fs p (.file ""), some (.typeError delimTypeErrMsg))) ∧
    (∀ (c : Char) (delim : String), delim.data = [c] → pyDelimChar delim = some c) ∧
    (∀ (fs : FS) (p content delim : String) (c : Char) (m : String),
      fs p = .file content → delim.data = [c] →
      CSVHandler.load fs p delim ≠ .error (.typeError m)) := by
  refine ⟨?_, ?_, ?_, ?_⟩
  · intro fs p content delim hfp hnone
    simp [CSVHandler.load, hfp, hnone]
  · intro fs p delim data hfs hnone
    cases hfp : fs p with
    | ioFail e => exact absurd hfp (hfs e)
    | absent => simp [CSVHandler.save, hfp, hnone]
    | file c => simp [CSVHandler.save, hfp, hnone]
  · intro c delim h
    unfold pyDelimChar
    rw [h]
  · intro fs p content delim c m hfp hdelim hcon
    have hpd : pyDelimChar delim = some c := by
      unfold pyDelimChar
      rw [hdelim]
    rw [load_file_eq fs p content delim c hfp hpd] at hcon
    cases hps : csvParseStr c content with
    | error msg => rw [hps] at hcon; simp at hcon
    | ok rows => rw [hps] at hcon; simp at hcon

/-- Witness for C9: loading an existing file with delimiter `";;"`. -/
theorem invalid_delimiter_type_error_witness :
    CSVHandler.load (fun _ => FileState.file "a,b") "t2.csv" ";;" =
      .error (.typeError delimTypeErrMsg) :=
  invalid_delimiter_type_error.1 (fun _ => FileState.file "a,b") "t2.csv" "a,b" ";;" rfl rfl

/-! ### Claim C10 -/

/-- Claim C10: saving the empty data succeeds and leaves the file existing
with empty content, and loading an empty file returns `[]`. -/
theorem empty_data_save_load (fs : FS) (p : String) (delim : String) (d : Char)
    (hdelim : delim.data = [d]) (hfs : ∀ e, fs p ≠ FileState.ioFail e) :
    (CSVHandler.save fs p [] delim).1 p = .file "" ∧
    (CSVHandler.save fs p [] delim).2 = none ∧
    (∀ fs2 : FS, fs2 p = .file "" → CSVHandler.load fs2 p delim = .ok []) := by
  have hpd : pyDelimChar delim = some d := by
    unfold pyDelimChar
    rw [hdelim]
  have hw : csvWriteContentStr d [] = "" := rfl
  refine ⟨?_, ?_, ?_⟩
  · rw [save_ok fs p [] delim d hpd hfs]
    simp [updateFS, hw]
  · rw [save_ok fs p [] delim d hpd hfs]
  · intro fs2 h2
    rw [load_file_eq fs2 p "" delim d h2 hpd]
    have hparse : csvParseStr d "" = .ok [] := rfl
    rw [hparse]

/-- Witness for C10: empty save over prior content, and empty load. -/
theorem empty_data_save_load_witness :
    (CSVHandler.save (fun _ => FileState.file "old") "e.csv" [] ",").1 "e.csv" = .file "" ∧
    CSVHandler.load (fun _ => FileState.file "") "e.csv" "," = .ok [] := by
  have h := empty_data_save_load (fun _ => FileState.file "old") "e.csv" "," ','
    (by decide) (fun e hcon => nomatch hcon)
  exact ⟨h.1, h.2.2 (fun _ => FileState.file "") rfl⟩

/-! ### Claim C7 -/

/-- Consuming one record written with delimiter `';'` while parsing with
delimiter `','`: when the fields contain none of `','`, `';'`, `'"'` and no
line break, the writer quotes nothing, every body character is ordinary for
the comma parser, and the whole body is swallowed as one field. -/
theorem foldl_mismatchChunk (row : List (List Char)) (hne : row ≠ [])
    (hrow : ∀ f ∈ row, ∀ c ∈ f, c ≠ ',' ∧ c ≠ ';' ∧ c ≠ '"' ∧ c ≠ '\n' ∧ c ≠ '\r')
    (R : List (List (List Char))) :
    List.foldl (pstep ',') (cleanAcc R) (rowChunkNL ';' row) =
      cleanAcc (R ++ [[joinDelim ';' row]]) := by
  have hrf : ∀ f ∈ row, csvRenderField ';' f = f := by
    intro f hf
    rw [csvRenderField, if_neg]
    intro hq
    unfold csvNeedsQuote at hq
    rw [List.any_eq_true] at hq
    obtain ⟨c, hcmem, hor⟩ := hq
    simp only [Bool.or_eq_true, decide_eq_true_eq] at hor
    obtain ⟨h1, h2, h3, h4, h5⟩ := hrow f hf c hcmem
    rcases hor with ((h | h) | h) | h
    · exact h2 h
    · exact h3 h
    · exact h5 h
    · exact h4 h
  have hmap : row.map (csvRenderField ';') = row := by
    have hmc := List.map_congr_left hrf
    simpa using hmc
  by_cases h11 : row = [[]]
  · subst h11
    show List.foldl (pstep ',') (cleanAcc R) (rowChunkNL ';' [[]]) =
      cleanAcc (R ++ [[([] : List Char)]])
    rfl
  · obtain ⟨f, fs, rfl⟩ : ∃ f fs, row = f :: fs := by
      cases row with
      | nil => exact absurd rfl hne
      | cons f fs => exact ⟨f, fs, rfl⟩
    have hnil : joinDelim ';' ((f :: fs).map (csvRenderField ';')) ≠ [] := by
      intro hcon
      exact h11 ((joinDelim_render_eq_nil ';' f fs).mp hcon)
    have hb : csvRowBody ';' (f :: fs) = joinDelim ';' (f :: fs) := by
      unfold csvRowBody
      rw [if_neg (fun hcon => hnil hcon.2), hmap]
    have hord : ∀ c ∈ joinDelim ';' (f :: fs), c ≠ ',' ∧ c ≠ '"' ∧ c ≠ '\n' ∧ c ≠ '\r' := by
      intro c hc
      rcases mem_joinDelim ';' (f :: fs) c hc with h | ⟨x, hx, hcx⟩
      · subst h
        exact ⟨by decide, by decide, by decide, by decide⟩
      · obtain ⟨h1, h2, h3, h4, h5⟩ := hrow x hx c hcx
        exact ⟨h1, h3, h4, h5⟩
    obtain ⟨c0, rest, hbody⟩ : ∃ c0 rest, joinDelim ';' (f :: fs) = c0 :: rest := by
      cases hJ : joinDelim ';' (f :: fs) with
      | nil =>
          rw [hmap] at hnil
          exact absurd hJ hnil
      | cons x xs => exact ⟨x, xs, rfl⟩
    have hc0 : c0 ≠ '\n' ∧ c0 ≠ '\r' := by
      have hm := hord c0 (by rw [hbody]; exact List.mem_cons_self c0 rest)
      exact ⟨hm.2.2.1, hm.2.2.2⟩
    have htrans : pstep ',' (cleanAcc R) c0 = pstep ',' ⟨.startField, [], [], R, none⟩ c0 :=
      pstep_startRecord_eq ',' c0 hc0 [] [] R
    rw [rowChunkNL, hb, hbody]
    rw [hbody] at hord
    calc List.foldl (pstep ',') (cleanAcc R) ((c0 :: rest) ++ ['\n'])
        = List.foldl (pstep ',') (pstep ',' (cleanAcc R) c0) (rest ++ ['\n']) := by
          rw [List.cons_append, List.foldl_cons]
      _ = List.foldl (pstep ',') ⟨.startField, [], [], R, none⟩ ((c0 :: rest) ++ ['\n']) := by
          rw [htrans, List.cons_append, List.foldl_cons]
      _ = cleanAcc (R ++ [[c0 :: rest]]) := by
          rw [List.foldl_append,
            foldl_ordinary_startField ',' (c0 :: rest) hord [] [] R]
          rw [if_neg (List.cons_ne_nil c0 rest)]
          rw [List.foldl_cons, List.foldl_nil,
            pstep_newline ',' ⟨by decide, by decide, by decide⟩ .inField (Or.inr (Or.inl rfl))]
          rfl

/-- Consuming a sequence of `';'`-written records with the comma parser. -/
theorem foldl_mismatchChunks :
    ∀ (rows : List (List (List Char))),
      (∀ row ∈ rows, row ≠ [] ∧ ∀ f ∈ row, ∀ c ∈ f,
        c ≠ ',' ∧ c ≠ ';' ∧ c ≠ '"' ∧ c ≠ '\n' ∧ c ≠ '\r') →
      ∀ R, List.foldl (pstep ',') (cleanAcc R) ((rows.map (rowChunkNL ';')).flatten) =
        cleanAcc (R ++ rows.map fun r => [joinDelim ';' r]) := by
  intro rows
  induction rows with
  | nil => intro _ R; simp
  | cons r rs ih =>
      intro h R
      obtain ⟨hne, hflds⟩ := h r (List.mem_cons_self r rs)
      rw [List.map_cons, List.flatten_cons, List.foldl_append,
        foldl_mismatchChunk r hne hflds R,
        ih (fun x hx => h x (List.mem_cons_of_mem r hx)) (R ++ [[joinDelim ';' r]])]
      simp

/-- Character-level delimiter-mismatch read-back: one unsplit `';'`-joined
field per row. -/
theorem csvParse_mismatch (rows : List (List (List Char)))
    (hrows : ∀ row ∈ rows, row ≠ [] ∧ ∀ f ∈ row, ∀ c ∈ f,
      c ≠ ',' ∧ c ≠ ';' ∧ c ≠ '"' ∧ c ≠ '\n' ∧ c ≠ '\r') :
    csvParseContent ',' (pyUnivNL (csvWriteContent ';' rows)) =
      .ok (rows.map fun r => [joinDelim ';' r]) := by
  have hcr : ∀ row ∈ rows, ∀ f ∈ row, ∀ c ∈ f, c ≠ '\r' :=
    fun row hrow f hf c hc => ((hrows row hrow).2 f hf c hc).2.2.2.2
  rw [pyUnivNL_csvWriteContent ';' (by decide) rows hcr]
  apply csvParseContent_eq_ok
  · cases rows with
    | nil => exact Or.inl rfl
    | cons r rs =>
        obtain ⟨z, hz⟩ := chunks_concat ';' rs r
        exact Or.inr (by rw [hz, List.getLast?_concat])
  · have h := foldl_mismatchChunks rows hrows []
    simpa [cleanAcc, initAcc] using h

/-- Claim C7 as stated allows quote characters in fields (its hypothesis only
excludes `','`, `';'` and newlines); then the writer quotes such a field, the
comma parser sees the opening quote mid-field as an ordinary character, and
the loaded single field is the raw written line, not the `';'`-join. -/
theorem delimiter_mismatch_counterexample :
    CSVHandler.load (CSVHandler.save (fun _ => FileState.absent) "m.csv"
        [["a", "b\"c"]] ";").1 "m.csv" "," = .ok [["a;\"b\"\"c\""]] ∧
    CSVHandler.load (CSVHandler.save (fun _ => FileState.absent) "m.csv"
        [["a", "b\"c"]] ";").1 "m.csv" "," ≠ .ok [[strJoinSemi ["a", "b\"c"]]] := by
  constructor
  · decide
  · decide

/-- Claim C7 (amended): delimiter mismatch is not auto-detected — for data
whose fields contain none of `','`, `';'`, the quote character `'"'`, or a
newline, and whose rows are nonempty, saving with `";"` then loading with
`","` returns each row as one unsplit field, its fields joined by `';'`. -/
theorem delimiter_mismatch_unsplit (fs : FS) (p : String) (D : List (List String))
    (hD : ∀ r ∈ D, r ≠ [] ∧ ∀ f ∈ r, ∀ c ∈ f.data,
      c ≠ ',' ∧ c ≠ ';' ∧ c ≠ '"' ∧ c ≠ '\n' ∧ c ≠ '\r')
    (hfs : ∀ e, fs p ≠ FileState.ioFail e) :
    CSVHandler.load (CSVHandler.save fs p D ";").1 p "," =
      .ok (D.map fun r => [strJoinSemi r]) := by
  have hpdW : pyDelimChar ";" = some ';' := rfl
  have hpdR : pyDelimChar "," = some ',' := rfl
  rw [save_ok fs p D ";" ';' hpdW hfs]
  have hup : (updateFS fs p (.file (csvWriteContentStr ';' D))) p =
      .file (csvWriteContentStr ';' D) := by simp [updateFS]
  rw [load_file_eq _ p (csvWriteContentStr ';' D) "," ',' hup hpdR]
  have hrows : ∀ row ∈ D.map fun r => r.map String.data, row ≠ [] ∧ ∀ f ∈ row, ∀ c ∈ f,
      c ≠ ',' ∧ c ≠ ';' ∧ c ≠ '"' ∧ c ≠ '\n' ∧ c ≠ '\r' := by
    intro row hrow
    obtain ⟨r, hr, rfl⟩ := List.mem_map.mp hrow
    obtain ⟨hne, hflds⟩ := hD r hr
    constructor
    · simpa using hne
    · intro f hf c hc
      obtain ⟨s, hs, rfl⟩ := List.mem_map.mp hf
      exact hflds s hs c hc
  have hparse : csvParseStr ',' (csvWriteContentStr ';' D) =
      .ok (D.map fun r => [strJoinSemi r]) := by
    rw [csvParseStr,
      show (csvWriteContentStr ';' D).data =
        csvWriteContent ';' (D.map fun r => r.map String.data) from rfl,
      csvParse_mismatch (D.map fun r => r.map String.data) hrows]
    show Except.ok (((D.map fun r => r.map String.data).map
        fun r => [joinDelim ';' r]).map fun rec => rec.map String.mk) = _
    rw [List.map_map, List.map_map]
    rfl
  rw [hparse]

/-- Witness for the amended C7 on a concrete two-field row. -/
theorem delimiter_mismatch_unsplit_witness :
    CSVHandler.load (CSVHandler.save (fun _ => FileState.absent) "w.csv"
        [["ab", "cd"]] ";").1 "w.csv" "," = .ok [["ab;cd"]] := by
  have h := delimiter_mismatch_unsplit (fun _ => FileState.absent) "w.csv" [["ab", "cd"]]
    (by decide) (fun e hcon => nomatch hcon)
  have hj : ([["ab", "cd"]].map fun r => [strJoinSemi r]) = [["ab;cd"]] := by decide
  rw [h, hj]

/-- Witness for C4 at allocator position 0. -/
theorem create_handler_csv_fresh_witness :
    ∃ (h1 h2 : Handler) (n1 n2 : Nat),
      create_handler 0 "csv" = .ok (h1, n1) ∧
      create_handler n1 "csv" = .ok (h2, n2) ∧
      h1.cls = .csvHandler ∧ h2.cls = .csvHandler ∧
      Handler.load h1 = CSVHandler.load ∧ Handler.save h1 = CSVHandler.save ∧
      h1 ≠ h2 :=
  create_handler_csv_fresh 0

/-- Witness for C8 at the keys `"csv"` and `"xml"`. -/
theorem registry_static_witness :
    (HANDLER_CLASSES.lookup "csv").isSome ∧ ¬ (HANDLER_CLASSES.lookup "xml").isSome := by
  constructor
  · exact (registry_static.2.1 "csv").mpr rfl
  · intro h
    exact absurd ((registry_static.2.1 "xml").mp h) (by decide)
